import Mathlib

/-!
Verification of the design-fairness audit core: a shallow embedding of the
contrast auditor (`design_assistant/audits/contrast.py`), the accessibility
score normalizer (`design_assistant/audits/accessibility.py`) and the fairness
fusion (`design_assistant/fusion.py`).  Python floats are modelled as exact
rationals; NumPy images as dimensioned pixel grids.  External library calls
(OpenCV contour detection and inpainting) are parameters of the embedding:
only their interface (a region list; a filled image) enters the audited logic.
-/

namespace DesignAssistant

/-! ## Fairness fusion (`fusion.py`) -/

/-- `DesignFairnessScore` dataclass: the aggregated fairness score components.
`accessibility_score` is `Optional[float]` in the source, hence `Option ℚ`. -/
structure DesignFairnessScore where
  accessibility_score : Option ℚ
  ethical_ux_score : ℚ
  alpha : ℚ
  beta : ℚ
  deriving DecidableEq

/-- The `value` property of `DesignFairnessScore` (fusion.py lines 17-24):
`weighted_accessibility = (accessibility_score or 0.0) * alpha` (Python `or`
yields `0.0` both for `None` and for a `0.0` score, which coincides with
`Option.getD 0`), `normalizer = (alpha if accessibility_score is not None
else 0.0) + beta`, returning `0.0` when the normalizer is zero. -/
def DesignFairnessScore.value (s : DesignFairnessScore) : ℚ :=
  let weighted_accessibility := (s.accessibility_score.getD 0) * s.alpha
  let weighted_ethics := s.ethical_ux_score * s.beta
  let normalizer := (if s.accessibility_score.isSome then s.alpha else 0) + s.beta
  if normalizer = 0 then 0
  else (weighted_accessibility + weighted_ethics) / normalizer

/-! ## Accessibility auditing (`audits/accessibility.py`) -/

/-- `AccessibilityViolation` dataclass. -/
structure AccessibilityViolation where
  violation_id : String
  impact : Option String
  description : String
  help_url : Option String
  nodes : List String
  deriving DecidableEq

/-- One entry of the raw axe-core `violations` list: each field models a key
that `audit_from_raw` reads with `.get` (absent key = `none`); each node dict
is read only through `node.get("html", "")`, so a node is its optional html. -/
structure RawViolation where
  id : Option String
  impact : Option String
  description : Option String
  helpUrl : Option String
  nodes : Option (List (Option String))
  deriving DecidableEq

/-- Raw axe-core results mapping, seen only through `.get("violations", [])`:
`violations = none` models a mapping without the `"violations"` key. -/
structure RawResults where
  violations : Option (List RawViolation)
  deriving DecidableEq

/-- `AccessibilityReport` dataclass. -/
structure AccessibilityReport where
  score : ℚ
  violations : List AccessibilityViolation
  raw_results : Option RawResults
  deriving DecidableEq

/-- `AccessibilityAuditor` configuration: the stored (already clamped)
baseline. -/
structure AccessibilityAuditor where
  baseline : ℤ
  deriving DecidableEq

/-- `AccessibilityAuditor.__init__`: `self.baseline = max(baseline, 1)`. -/
def AccessibilityAuditor.mk' (baseline : ℤ) : AccessibilityAuditor :=
  ⟨max baseline 1⟩

/-- The per-item conversion inside `audit_from_raw` (lines 58-67):
`item.get("id", "unknown")`, `item.get("impact")`, `item.get("description",
"")`, `item.get("helpUrl")`, `[node.get("html", "") for node in
item.get("nodes", [])]`. -/
def convertViolation (item : RawViolation) : AccessibilityViolation :=
  { violation_id := item.id.getD "unknown"
    impact := item.impact
    description := item.description.getD ""
    help_url := item.helpUrl
    nodes := (item.nodes.getD []).map (fun n => n.getD "") }

/-- `AccessibilityAuditor.audit_from_raw` (lines 56-70):
`violations_json = (results or {}).get("violations", []) if results else []`
(`none` input and a missing `"violations"` key both give `[]`),
`penalty = len(violations) / baseline`, `score = max(0.0, 1.0 - penalty)`. -/
def AccessibilityAuditor.audit_from_raw (a : AccessibilityAuditor)
    (results : Option RawResults) : AccessibilityReport :=
  let violations_json : List RawViolation :=
    match results with
    | none => []
    | some r => r.violations.getD []
  let violations := violations_json.map convertViolation
  let penalty : ℚ := (violations.length : ℚ) / (a.baseline : ℚ)
  { score := max 0 (1 - penalty), violations := violations, raw_results := results }

/-! ## Contrast auditing (`audits/contrast.py`) -/

/-- An RGB pixel with 8-bit channel values.  The source converts BGR crops to
RGB (`cv2.cvtColor(..., COLOR_BGR2RGB)`) before the luminance dot product;
modelling pixels directly as RGB absorbs that pure channel reordering. -/
structure RGB where
  r : ℕ
  g : ℕ
  b : ℕ
  deriving DecidableEq

/-- A NumPy `H×W×3` image: dimensions plus a total pixel grid (reads outside
the bounds never occur along audited paths). -/
structure Image where
  height : ℕ
  width : ℕ
  pixel : ℕ → ℕ → RGB

/-- `ndarray.size` of an `H×W×3` array. -/
def Image.size (img : Image) : ℕ := img.height * img.width * 3

/-- NumPy basic slicing `img[y1:y2, x1:x2]` for nonnegative indices: slice
ends are clamped to the array extent (an out-of-range slice is empty, not an
error). -/
def Image.crop (img : Image) (y1 y2 x1 x2 : ℕ) : Image :=
  { height := min y2 img.height - min y1 img.height
    width := min x2 img.width - min x1 img.width
    pixel := fun i j => img.pixel (min y1 img.height + i) (min x1 img.width + j) }

/-- WCAG weighted luminance of one pixel after the `/255.0` normalization:
`(r, g, b) / 255 · (0.2126, 0.7152, 0.0722)` (contrast.py lines 117-119). -/
def pixelLuminance (p : RGB) : ℚ :=
  (p.r : ℚ) / 255 * (2126 / 10000) + (p.g : ℚ) / 255 * (7152 / 10000) +
    (p.b : ℚ) / 255 * (722 / 10000)

/-- `ContrastAuditor._relative_luminance` (lines 114-122): `None` on an empty
patch, otherwise the mean per-pixel luminance.  The source tests emptiness
twice (`rgb.size == 0` and `luminance.size == 0`); both are `H*W = 0`, so one
guard captures both. -/
def relativeLuminance (img : Image) : Option ℚ :=
  if img.size = 0 then none
  else some ((∑ i ∈ Finset.range img.height, ∑ j ∈ Finset.range img.width,
    pixelLuminance (img.pixel i j)) / ((img.height * img.width : ℕ) : ℚ))

/-- `ContrastAuditor` configuration (lines 48-57). -/
structure ContrastAuditor where
  min_region_area : ℕ
  contrast_threshold : ℚ
  padding : ℕ
  deriving DecidableEq

/-- The constructor defaults: `min_region_area=200`, `contrast_threshold=4.5`,
`padding=4`. -/
def ContrastAuditor.defaults : ContrastAuditor := ⟨200, 9/2, 4⟩

/-- A detected bounding box, as returned by `cv2.boundingRect`. -/
structure Region where
  x : ℕ
  y : ℕ
  w : ℕ
  h : ℕ
  deriving DecidableEq

/-- `ContrastViolation` dataclass; `contrast_value` models its
`contrast_ratio` field. -/
structure ContrastViolation where
  bbox : Option (ℕ × ℕ × ℕ × ℕ)
  contrast_value : Option ℚ
  description : Option String
  deriving DecidableEq

/-- `ContrastReport` dataclass. -/
structure ContrastReport where
  average_contrast : ℚ
  violations : List ContrastViolation
  deriving DecidableEq

/-- `_extract_background` line 104: `y1 = max(y - pad, 0)` (ℕ subtraction). -/
def bgY1 (padding y : ℕ) : ℕ := y - padding

/-- `_extract_background` line 105: `y2 = min(y + h + pad, image.shape[0])`. -/
def bgY2 (padding : ℕ) (img : Image) (y h : ℕ) : ℕ := min (y + h + padding) img.height

/-- `_extract_background` line 106: `x1 = max(x - pad, 0)`. -/
def bgX1 (padding x : ℕ) : ℕ := x - padding

/-- `_extract_background` line 107: `x2 = min(x + w + pad, image.shape[1])`. -/
def bgX2 (padding : ℕ) (img : Image) (x w : ℕ) : ℕ := min (x + w + padding) img.width

/-- The inpainting mask of `_extract_background` lines 109-110 as a function
of crop coordinates: a 255-initialized array with
`mask[pad : pad + h, pad : pad + w] = 0` (NumPy clamps the assigned slice to
the array extent; the mask is only ever read at coordinates inside the crop). -/
def bgMask (padding w h i j : ℕ) : ℕ :=
  if padding ≤ i ∧ i < padding + h ∧ padding ≤ j ∧ j < padding + w then 0 else 255

/-- `ContrastAuditor._extract_background` (lines 102-112).  `inpaint` stands
for the external `cv2.inpaint(region, mask, 3, INPAINT_TELEA)` call, taking
the cropped sub-image and the mask function. -/
def extract_background (inpaint : Image → (ℕ → ℕ → ℕ) → Image)
    (padding : ℕ) (img : Image) (x y w h : ℕ) : Image :=
  inpaint
    (img.crop (bgY1 padding y) (bgY2 padding img y h) (bgX1 padding x) (bgX2 padding img x w))
    (bgMask padding w h)

/-- Lines 92-93 of contrast.py: `l1, l2 = max(fg, bg), min(fg, bg)` and then
`(l1 + 0.05) / (l2 + 0.05)` — the WCAG contrast of two luminance values. -/
def wcagContrast (a b : ℚ) : ℚ := (max a b + 1 / 20) / (min a b + 1 / 20)

/-- One iteration of the region loop (lines 76-93) up to the sampled value:
`none` when the region is skipped (area filter of line 78; empty roi or
background of line 83; non-computable luminance of line 89), otherwise the
contrast of the region patch against its inpainted background. -/
def regionSample (cfg : ContrastAuditor) (inpaint : Image → (ℕ → ℕ → ℕ) → Image)
    (img : Image) (r : Region) : Option ℚ :=
  if r.w * r.h < cfg.min_region_area then none
  else if (img.crop r.y (r.y + r.h) r.x (r.x + r.w)).size = 0 ∨
      (extract_background inpaint cfg.padding img r.x r.y r.w r.h).size = 0 then none
  else
    match relativeLuminance (img.crop r.y (r.y + r.h) r.x (r.x + r.w)),
        relativeLuminance (extract_background inpaint cfg.padding img r.x r.y r.w r.h) with
    | some fg, some bgl => some (wcagContrast fg bgl)
    | _, _ => none

/-- Lines 94-97: append the sample and, when it is strictly below the
threshold, a violation carrying the bounding box and the value. -/
def auditStep (cfg : ContrastAuditor) (inpaint : Image → (ℕ → ℕ → ℕ) → Image)
    (img : Image) (acc : List ℚ × List ContrastViolation) (r : Region) :
    List ℚ × List ContrastViolation :=
  match regionSample cfg inpaint img r with
  | none => acc
  | some c =>
    (acc.1 ++ [c],
      if c < cfg.contrast_threshold then
        acc.2 ++ [⟨some (r.x, r.y, r.w, r.h), some c, none⟩]
      else acc.2)

/-- The region loop and final aggregation of `ContrastAuditor.audit` (lines
73-100) given the detector's region list:
`average_contrast = float(np.mean(samples)) if samples else 0.0`. -/
def auditCore (cfg : ContrastAuditor) (inpaint : Image → (ℕ → ℕ → ℕ) → Image)
    (img : Image) (regions : List Region) : ContrastReport :=
  let acc := regions.foldl (auditStep cfg inpaint img) ([], [])
  { average_contrast := if acc.1 = [] then 0 else acc.1.sum / (acc.1.length : ℚ)
    violations := acc.2 }

/-- `ContrastAuditor.audit` (lines 59-100).  `detect` stands for the OpenCV
grayscale/blur/Laplacian/Otsu/dilate/contour chain of lines 63-71 — an
external call yielding bounding boxes.  A `none` image models Python `None`;
lines 60-61 raise `ValueError("Empty image provided for contrast audit")`. -/
def audit (cfg : ContrastAuditor) (inpaint : Image → (ℕ → ℕ → ℕ) → Image)
    (detect : Image → List Region) (imageOpt : Option Image) :
    Except String ContrastReport :=
  match imageOpt with
  | none => Except.error "Empty image provided for contrast audit"
  | some img =>
    if img.size = 0 then Except.error "Empty image provided for contrast audit"
    else Except.ok (auditCore cfg inpaint img (detect img))

/-! ## Concrete instances used by witnesses and counterexamples -/

/-- A black pixel. -/
def blackPixel : RGB := ⟨0, 0, 0⟩

/-- A 1×1 all-black image. -/
def img1 : Image := ⟨1, 1, fun _ _ => blackPixel⟩

/-- A 10×10 all-black image. -/
def img10 : Image := ⟨10, 10, fun _ _ => blackPixel⟩

/-- A concrete stand-in for the external inpainting call; `cv2.inpaint`
returns the input region unchanged when the mask selects no pixel, which is
all the audited logic ever depends on. -/
def inpaintId : Image → (ℕ → ℕ → ℕ) → Image := fun region _ => region

/-- A small auditor configuration: unit minimum area, default threshold 4.5,
padding 0. -/
def cfgTiny : ContrastAuditor := ⟨1, 9/2, 0⟩

/-! ## Theorems: fusion and accessibility claims -/

/-- C7: for every ethics score `e` and every `beta > 0`, fusing with an absent
accessibility score excludes `alpha` from the normalizer entirely, so the
fused value equals `e` exactly. -/
theorem value_absent_accessibility (e alpha beta : ℚ) (hb : 0 < beta) :
    (DesignFairnessScore.mk none e alpha beta).value = e := by
  unfold DesignFairnessScore.value
  simp only [Option.isSome_none, Bool.false_eq_true, if_false, zero_add,
    Option.getD_none, zero_mul]
  rw [if_neg hb.ne']
  field_simp

/-- C7 witness: `fuse(null, 0.8, alpha=0.5, beta=0.5) == 0.8` exactly. -/
theorem value_absent_accessibility_witness :
    (DesignFairnessScore.mk none (4/5) (1/2) (1/2)).value = 4/5 :=
  value_absent_accessibility (4/5) (1/2) (1/2) (by norm_num)

/-- C8: with accessibility in `[0,1]` (when present), ethics in `[0,1]` and
nonnegative weights, the fused fairness value lies in `[0,1]`; and when the
normalizer is `0` the value is exactly `0` rather than a division error. -/
theorem value_bounds (acc : Option ℚ) (e alpha beta : ℚ)
    (hacc : ∀ a ∈ acc, 0 ≤ a ∧ a ≤ 1)
    (he0 : 0 ≤ e) (he1 : e ≤ 1) (ha : 0 ≤ alpha) (hb : 0 ≤ beta) :
    (0 ≤ (DesignFairnessScore.mk acc e alpha beta).value ∧
      (DesignFairnessScore.mk acc e alpha beta).value ≤ 1) ∧
    ((if acc.isSome then alpha else 0) + beta = 0 →
      (DesignFairnessScore.mk acc e alpha beta).value = 0) := by
  constructor
  · cases acc with
    | none =>
      unfold DesignFairnessScore.value
      simp only [Option.isSome_none, Bool.false_eq_true, if_false, zero_add,
        Option.getD_none, zero_mul]
      by_cases hz : beta = 0
      · simp [hz]
      · have hbpos : 0 < beta := lt_of_le_of_ne hb (Ne.symm hz)
        rw [if_neg hz]
        refine ⟨div_nonneg (by nlinarith) hbpos.le, ?_⟩
        rw [div_le_one hbpos]
        nlinarith
    | some a =>
      obtain ⟨ha0, ha1⟩ := hacc a rfl
      unfold DesignFairnessScore.value
      simp only [Option.isSome_some, if_true, Option.getD_some]
      by_cases hz : alpha + beta = 0
      · simp [hz]
      · have hpos : 0 < alpha + beta := lt_of_le_of_ne (by linarith) (Ne.symm hz)
        rw [if_neg hz]
        refine ⟨div_nonneg (by nlinarith) hpos.le, ?_⟩
        rw [div_le_one hpos]
        nlinarith
  · intro hz
    unfold DesignFairnessScore.value
    simp [hz]

/-- C8 witness at a concrete input. -/
theorem value_bounds_witness :
    (0 ≤ (DesignFairnessScore.mk (some (1/2)) (1/2) 1 1).value ∧
      (DesignFairnessScore.mk (some (1/2)) (1/2) 1 1).value ≤ 1) ∧
    ((if (some (1/2) : Option ℚ).isSome then (1 : ℚ) else 0) + 1 = 0 →
      (DesignFairnessScore.mk (some (1/2)) (1/2) 1 1).value = 0) :=
  value_bounds (some (1/2)) (1/2) 1 1
    (by intro a ha; rw [Option.mem_def, Option.some_inj] at ha; norm_num [← ha])
    (by norm_num) (by norm_num) (by norm_num) (by norm_num)

/-- C6: for every constructor baseline and every raw violation list of length
`n`, the accessibility score is `max 0 (1 - n / max baseline 1)`; it lies in
`[0,1]` and is `1` exactly when `n = 0`. -/
theorem accessibility_score_spec (b : ℤ) (vs : List RawViolation) :
    ((AccessibilityAuditor.mk' b).audit_from_raw (some ⟨some vs⟩)).score =
        max 0 (1 - (vs.length : ℚ) / ((max b 1 : ℤ) : ℚ)) ∧
    (0 ≤ ((AccessibilityAuditor.mk' b).audit_from_raw (some ⟨some vs⟩)).score ∧
      ((AccessibilityAuditor.mk' b).audit_from_raw (some ⟨some vs⟩)).score ≤ 1) ∧
    (((AccessibilityAuditor.mk' b).audit_from_raw (some ⟨some vs⟩)).score = 1 ↔
      vs.length = 0) := by
  have hbase : (AccessibilityAuditor.mk' b).baseline = max b 1 := rfl
  have hb1 : (1 : ℤ) ≤ max b 1 := le_max_right b 1
  have hbpos : (0 : ℚ) < ((max b 1 : ℤ) : ℚ) := by
    exact_mod_cast lt_of_lt_of_le one_pos hb1
  have hscore : ((AccessibilityAuditor.mk' b).audit_from_raw (some ⟨some vs⟩)).score =
      max 0 (1 - (vs.length : ℚ) / ((max b 1 : ℤ) : ℚ)) := by
    unfold AccessibilityAuditor.audit_from_raw
    simp [hbase]
  refine ⟨hscore, ⟨?_, ?_⟩, ?_⟩
  · rw [hscore]; exact le_max_left 0 _
  · rw [hscore]
    have hnn : (0 : ℚ) ≤ (vs.length : ℚ) / ((max b 1 : ℤ) : ℚ) :=
      div_nonneg (by positivity) hbpos.le
    rw [max_le_iff]
    constructor <;> linarith
  · rw [hscore]
    constructor
    · intro h1
      by_contra hne
      have hlen : (0 : ℚ) < (vs.length : ℚ) := by
        exact_mod_cast Nat.pos_of_ne_zero hne
      have hdivpos : (0 : ℚ) < (vs.length : ℚ) / ((max b 1 : ℤ) : ℚ) :=
        div_pos hlen hbpos
      have hlt : max (0 : ℚ) (1 - (vs.length : ℚ) / ((max b 1 : ℤ) : ℚ)) < 1 :=
        max_lt one_pos (by linarith)
      rw [h1] at hlt
      exact lt_irrefl 1 hlt
    · intro h0
      rw [h0]
      norm_num

/-- C10: converting absent raw accessibility results — a `None` input or a
mapping with no `"violations"` key — yields score exactly `1` and an empty
violation list. -/
theorem audit_from_raw_absent (a : AccessibilityAuditor) (results : Option RawResults)
    (habs : results = none ∨ ∃ rr, results = some rr ∧ rr.violations = none) :
    (a.audit_from_raw results).score = 1 ∧ (a.audit_from_raw results).violations = [] := by
  have hjson : (match results with
      | none => ([] : List RawViolation)
      | some r => r.violations.getD []) = [] := by
    rcases habs with h | ⟨rr, hrr, hv⟩
    · rw [h]
    · rw [hrr]
      show rr.violations.getD [] = []
      rw [hv]
      rfl
  unfold AccessibilityAuditor.audit_from_raw
  rw [hjson]
  norm_num

/-- C10 witness: `audit_from_raw` on a `None` input at baseline 25. -/
theorem audit_from_raw_absent_witness :
    ((AccessibilityAuditor.mk' 25).audit_from_raw none).score = 1 ∧
      ((AccessibilityAuditor.mk' 25).audit_from_raw none).violations = [] :=
  audit_from_raw_absent (AccessibilityAuditor.mk' 25) none (Or.inl rfl)

/-! ## Theorems: contrast claims -/

/-- C4: for luminance values in `[0,1]`, the WCAG contrast of lines 92-93 is
at least `1` and is symmetric in its two arguments. -/
theorem wcagContrast_floor_and_symm (l1 l2 : ℚ)
    (h10 : 0 ≤ l1) (h11 : l1 ≤ 1) (h20 : 0 ≤ l2) (h21 : l2 ≤ 1) :
    1 ≤ wcagContrast l1 l2 ∧ wcagContrast l1 l2 = wcagContrast l2 l1 := by
  unfold wcagContrast
  constructor
  · have hmin : (0 : ℚ) ≤ min l1 l2 := le_min h10 h20
    have hden : (0 : ℚ) < min l1 l2 + 1 / 20 := by linarith
    rw [le_div_iff₀ hden]
    have hle : min l1 l2 ≤ max l1 l2 := min_le_max
    linarith
  · rw [max_comm, min_comm]

/-- C4 witness at the extreme pair `(0, 1)`. -/
theorem wcagContrast_floor_and_symm_witness :
    1 ≤ wcagContrast 0 1 ∧ wcagContrast 0 1 = wcagContrast 1 0 :=
  wcagContrast_floor_and_symm 0 1 (by norm_num) (by norm_num) (by norm_num) (by norm_num)

/-- C5: `audit` rejects a `None` or zero-size image with exactly the
`ValueError` of line 61 before any processing, and on every non-empty image
it returns a report — no other error is surfaced. -/
theorem audit_empty_image_rejected (cfg : ContrastAuditor)
    (inpaint : Image → (ℕ → ℕ → ℕ) → Image) (detect : Image → List Region)
    (imageOpt : Option Image) :
    ((imageOpt = none ∨ ∃ img, imageOpt = some img ∧ img.size = 0) →
      audit cfg inpaint detect imageOpt =
        Except.error "Empty image provided for contrast audit") ∧
    (∀ img, imageOpt = some img → img.size ≠ 0 →
      audit cfg inpaint detect imageOpt =
        Except.ok (auditCore cfg inpaint img (detect img))) := by
  constructor
  · rintro (h | ⟨img, hsome, hsz⟩)
    · rw [h]
      rfl
    · rw [hsome]
      show (if img.size = 0 then _ else _) = _
      rw [if_pos hsz]
  · intro img hsome hsz
    rw [hsome]
    show (if img.size = 0 then _ else _) = _
    rw [if_neg hsz]

/-- C5 witness: a `None` image is rejected under the default configuration. -/
theorem audit_empty_image_rejected_witness :
    audit ContrastAuditor.defaults inpaintId (fun _ => []) none =
      Except.error "Empty image provided for contrast audit" :=
  (audit_empty_image_rejected ContrastAuditor.defaults inpaintId (fun _ => []) none).1
    (Or.inl rfl)

/-- Helper: the sample list accumulated by the region loop is the
accumulator followed by the `regionSample` of each region, in order. -/
theorem auditStep_fold_samples (cfg : ContrastAuditor)
    (inpaint : Image → (ℕ → ℕ → ℕ) → Image) (img : Image) :
    ∀ (regions : List Region) (acc : List ℚ × List ContrastViolation),
      (regions.foldl (auditStep cfg inpaint img) acc).1 =
        acc.1 ++ regions.filterMap (regionSample cfg inpaint img) := by
  intro regions
  induction regions with
  | nil => intro acc; simp
  | cons r rs ih =>
    intro acc
    rw [List.foldl_cons, ih]
    cases hsr : regionSample cfg inpaint img r with
    | none => simp [auditStep, hsr, List.filterMap_cons]
    | some c =>
      by_cases hlt : c < cfg.contrast_threshold <;>
        simp [auditStep, hsr, hlt, List.filterMap_cons]

/-- Helper: every violation produced by the region loop comes from a region
of the list whose sample fell strictly below the threshold. -/
theorem auditStep_fold_violations (cfg : ContrastAuditor)
    (inpaint : Image → (ℕ → ℕ → ℕ) → Image) (img : Image) :
    ∀ (regions : List Region) (acc : List ℚ × List ContrastViolation)
      (v : ContrastViolation),
      v ∈ (regions.foldl (auditStep cfg inpaint img) acc).2 →
      v ∈ acc.2 ∨ ∃ r ∈ regions, ∃ c, regionSample cfg inpaint img r = some c ∧
        c < cfg.contrast_threshold ∧
        v = ⟨some (r.x, r.y, r.w, r.h), some c, none⟩ := by
  intro regions
  induction regions with
  | nil => intro acc v hv; exact Or.inl hv
  | cons r rs ih =>
    intro acc v hv
    rw [List.foldl_cons] at hv
    rcases ih _ v hv with hacc | ⟨r', hr', c, hsc, hlt, hveq⟩
    · cases hsr : regionSample cfg inpaint img r with
      | none =>
        simp only [auditStep, hsr] at hacc
        exact Or.inl hacc
      | some c =>
        simp only [auditStep, hsr] at hacc
        by_cases hlt : c < cfg.contrast_threshold
        · rw [if_pos hlt] at hacc
          rcases List.mem_append.mp hacc with h1 | h2
          · exact Or.inl h1
          · exact Or.inr ⟨r, List.mem_cons_self r rs, c, hsr, hlt,
              List.mem_singleton.mp h2⟩
        · rw [if_neg hlt] at hacc
          exact Or.inl hacc
    · exact Or.inr ⟨r', List.mem_cons_of_mem r hr', c, hsc, hlt, hveq⟩

/-- C3: the report's `average_contrast` is the arithmetic mean of the samples
of all processed regions — violating and non-violating alike — and exactly
`0` when no region produced a sample. -/
theorem audit_average_is_mean (cfg : ContrastAuditor)
    (inpaint : Image → (ℕ → ℕ → ℕ) → Image) (img : Image) (regions : List Region) :
    (auditCore cfg inpaint img regions).average_contrast =
      (if regions.filterMap (regionSample cfg inpaint img) = [] then 0
       else (regions.filterMap (regionSample cfg inpaint img)).sum /
         ((regions.filterMap (regionSample cfg inpaint img)).length : ℚ)) := by
  have hs := auditStep_fold_samples cfg inpaint img regions ([], [])
  simp only [auditCore, hs, List.nil_append]

/-- C9: under the detector guarantee that bounding boxes fit in the image,
every reported violation carries a box of positive width and height, of area
at least `min_region_area`, lying within image bounds, and a contrast value
strictly below the threshold. -/
theorem audit_violation_invariants (cfg : ContrastAuditor)
    (inpaint : Image → (ℕ → ℕ → ℕ) → Image) (img : Image) (regions : List Region)
    (hb : ∀ r ∈ regions, r.y + r.h ≤ img.height ∧ r.x + r.w ≤ img.width) :
    ∀ v ∈ (auditCore cfg inpaint img regions).violations,
      ∃ x y w h c, v.bbox = some (x, y, w, h) ∧ v.contrast_value = some c ∧
        0 < w ∧ 0 < h ∧ cfg.min_region_area ≤ w * h ∧
        x + w ≤ img.width ∧ y + h ≤ img.height ∧ c < cfg.contrast_threshold := by
  intro v hv
  have hv2 : v ∈ (regions.foldl (auditStep cfg inpaint img) ([], [])).2 := by
    simpa [auditCore] using hv
  rcases auditStep_fold_violations cfg inpaint img regions ([], []) v hv2 with
    h0 | ⟨r, hr, c, hsc, hlt, hveq⟩
  · simp at h0
  · obtain ⟨hyb, hxb⟩ := hb r hr
    have harea : ¬ (r.w * r.h < cfg.min_region_area) := by
      intro hlt'
      unfold regionSample at hsc
      rw [if_pos hlt'] at hsc
      exact Option.noConfusion hsc
    have hsz : ¬ ((img.crop r.y (r.y + r.h) r.x (r.x + r.w)).size = 0 ∨
        (extract_background inpaint cfg.padding img r.x r.y r.w r.h).size = 0) := by
      intro hor
      unfold regionSample at hsc
      rw [if_neg harea, if_pos hor] at hsc
      exact Option.noConfusion hsc
    have hroine : (img.crop r.y (r.y + r.h) r.x (r.x + r.w)).size ≠ 0 :=
      fun h0 => hsz (Or.inl h0)
    have hwh : 0 < r.w ∧ 0 < r.h := by
      simp only [Image.size, Image.crop] at hroine
      rw [min_eq_left hyb, min_eq_left hxb,
        min_eq_left (le_trans (Nat.le_add_right r.y r.h) hyb),
        min_eq_left (le_trans (Nat.le_add_right r.x r.w) hxb),
        Nat.add_sub_cancel_left, Nat.add_sub_cancel_left] at hroine
      rw [Nat.mul_ne_zero_iff, Nat.mul_ne_zero_iff] at hroine
      omega
    exact ⟨r.x, r.y, r.w, r.h, c, by rw [hveq], by rw [hveq],
      hwh.1, hwh.2, Nat.le_of_not_lt harea, hxb, hyb, hlt⟩

/-- C9 witness: a concrete violating run — a single all-black 1×1 region on a
1×1 black image with padding `0` yields the violation
`(bbox = (0,0,1,1), contrast = 1)`, which satisfies every invariant. -/
theorem audit_violation_invariants_witness :
    (∀ r ∈ [Region.mk 0 0 1 1], r.y + r.h ≤ img1.height ∧ r.x + r.w ≤ img1.width) ∧
    ContrastViolation.mk (some (0, 0, 1, 1)) (some 1) none ∈
      (auditCore cfgTiny inpaintId img1 [⟨0, 0, 1, 1⟩]).violations ∧
    (∃ x y w h c,
      (ContrastViolation.mk (some (0, 0, 1, 1)) (some 1) none).bbox = some (x, y, w, h) ∧
      (ContrastViolation.mk (some (0, 0, 1, 1)) (some 1) none).contrast_value = some c ∧
      0 < w ∧ 0 < h ∧ cfgTiny.min_region_area ≤ w * h ∧
      x + w ≤ img1.width ∧ y + h ≤ img1.height ∧ c < cfgTiny.contrast_threshold) := by
  have hb : ∀ r ∈ [Region.mk 0 0 1 1], r.y + r.h ≤ img1.height ∧ r.x + r.w ≤ img1.width := by
    decide
  have hmem : ContrastViolation.mk (some (0, 0, 1, 1)) (some 1) none ∈
      (auditCore cfgTiny inpaintId img1 [⟨0, 0, 1, 1⟩]).violations := by
    norm_num [auditCore, auditStep, regionSample, extract_background, relativeLuminance,
      Image.crop, Image.size, pixelLuminance, wcagContrast, bgY1, bgY2, bgX1, bgX2,
      cfgTiny, inpaintId, img1, blackPixel, max_def, min_def, Finset.sum_range_one]
  exact ⟨hb, hmem,
    audit_violation_invariants cfgTiny inpaintId img1 [⟨0, 0, 1, 1⟩] hb _ hmem⟩

/-- C2 counterexample: with `padding = 0` the padding ring has zero area, yet
the region is NOT skipped.  On a 1×1 all-black image, the single region
`(0,0,1,1)` is compared against an inpainted background that is the region
itself (the mask selects no pixel), contributing a sample — the average
becomes `1`, not `0` — and a spurious violation of contrast `1`. -/
theorem zero_padding_ring_still_sampled :
    auditCore cfgTiny inpaintId img1 [⟨0, 0, 1, 1⟩] =
      { average_contrast := 1,
        violations := [⟨some (0, 0, 1, 1), some 1, none⟩] } := by
  norm_num [auditCore, auditStep, regionSample, extract_background, relativeLuminance,
    Image.crop, Image.size, pixelLuminance, wcagContrast, bgY1, bgY2, bgX1, bgX2,
    cfgTiny, inpaintId, img1, blackPixel, max_def, min_def, Finset.sum_range_one]

/-- C2 amended: a region whose own clipped extent collapses to zero area
(`w * h = 0`) is skipped by the loop: it contributes nothing to the samples,
the average or the violations, and no error arises.  (A zero-area padding
ring alone, `padding = 0` with a nonempty region, does not trigger a skip.) -/
theorem zero_area_region_skipped (cfg : ContrastAuditor)
    (inpaint : Image → (ℕ → ℕ → ℕ) → Image) (img : Image)
    (rs1 rs2 : List Region) (r : Region) (hr : r.w * r.h = 0) :
    auditCore cfg inpaint img (rs1 ++ r :: rs2) = auditCore cfg inpaint img (rs1 ++ rs2) := by
  have hnone : regionSample cfg inpaint img r = none := by
    unfold regionSample
    by_cases harea : r.w * r.h < cfg.min_region_area
    · rw [if_pos harea]
    · rw [if_neg harea, if_pos]
      left
      simp only [Image.size, Image.crop]
      rcases Nat.mul_eq_zero.mp hr with hw | hh
      · rw [hw]
        simp
      · rw [hh]
        simp
  have hstep : ∀ acc, auditStep cfg inpaint img acc r = acc := by
    intro acc
    unfold auditStep
    rw [hnone]
  simp only [auditCore, List.foldl_append, List.foldl_cons, hstep]

/-- C2 amended witness: a width-zero region in the middle of the list changes
nothing. -/
theorem zero_area_region_skipped_witness :
    (Region.mk 0 0 0 1).w * (Region.mk 0 0 0 1).h = 0 ∧
    auditCore cfgTiny inpaintId img1 ([] ++ Region.mk 0 0 0 1 :: []) =
      auditCore cfgTiny inpaintId img1 ([] ++ []) :=
  ⟨rfl, zero_area_region_skipped cfgTiny inpaintId img1 [] [] (Region.mk 0 0 0 1) rfl⟩

/-- C1: failing input for the background-estimation mask.  Region
`(x, y, w, h) = (0, 0, 5, 5)` with padding `4` on a 10×10 image: the padded
crop is clipped at the top-left (crop window rows `[0,9)`, cols `[0,9)`).
Crop coordinate `(0,0)` maps to image pixel `(0,0)`, inside the original
unpadded region, yet the mask leaves it at `255` (treated as known
background); crop coordinate `(5,5)` maps to image pixel `(5,5)`, in the
padding ring (row `5 ≥ y + h`), yet the mask marks it `0` (to be removed).
The zeroed window `[pad, pad+h) × [pad, pad+w)` of line 110 assumes the crop
origin is `(y - pad, x - pad)` and is shifted off the original region
whenever the box is clipped at the top or left edge. -/
theorem bgMask_clipped_shift :
    bgY1 4 0 = 0 ∧ bgY2 4 img10 0 5 = 9 ∧ bgX1 4 0 = 0 ∧ bgX2 4 img10 0 5 = 9 ∧
    bgMask 4 5 5 0 0 = 255 ∧ bgY1 4 0 + 0 < 0 + 5 ∧ bgX1 4 0 + 0 < 0 + 5 ∧
    bgMask 4 5 5 5 5 = 0 ∧ 0 + 5 ≤ bgY1 4 0 + 5 := by decide

end DesignAssistant
